import Mathlib

/-!
Verification of the `header-translator` pipeline driver
(`crates/header-translator/src/main.rs`): SDK discovery, the single-pass
AST visitation state machine of `parse_sdk`, framework/file identification
from source paths, and the cross-target comparison.

Paths are modelled as lists of components (`List String`); machine-level
string operations from the Rust standard library (`strip_suffix`,
`Path::file_stem`, `Path::strip_prefix`, `str::split`) are embedded over
`List Char` / component lists with the same semantics.
-/

set_option autoImplicit false

deriving instance DecidableEq for Except

namespace HeaderTranslator

/-- `stripPrefixL pre l` models dropping the list `pre` from the front of
`l`: `some` of the remainder when `pre` is a prefix of `l`, else `none`. -/
def stripPrefixL {α : Type} [DecidableEq α] : List α → List α → Option (List α)
  | [], l => some l
  | _ :: _, [] => none
  | a :: pre, b :: l => if a = b then stripPrefixL pre l else none

/-- `stripSuffixL l suf` removes the suffix `suf` from `l` when present. -/
def stripSuffixL {α : Type} [DecidableEq α] (l suf : List α) : Option (List α) :=
  (stripPrefixL suf.reverse l.reverse).map List.reverse

/-- Rust `str::strip_suffix`: `some` of the string without the suffix when
it ends with `suf`, else `none`. -/
def stripSuffix (s suf : String) : Option String :=
  (stripSuffixL s.data suf.data).map fun l => ⟨l⟩

/-- Split a character list at every occurrence of `sep`, keeping empty
pieces, as Rust `str::split` does. -/
def splitOnChar (sep : Char) : List Char → List (List Char)
  | [] => [[]]
  | c :: cs =>
    let r := splitOnChar sep cs
    if c = sep then [] :: r
    else
      match r with
      | [] => [[c]]
      | h :: t => (c :: h) :: t

/-- Rust `str::split('/')`: the pieces of `s` between `'/'` separators
(never empty as a list; an empty string yields `[""]`). -/
def splitSlash (s : String) : List String :=
  (splitOnChar '/' s.data).map fun l => ⟨l⟩

/-- Helper for Rust `Path::file_stem`: drop characters of a reversed file
name up to and including the first `'.'`; `none` when there is no dot. -/
def dropThroughFirstDot : List Char → Option (List Char)
  | [] => none
  | c :: cs => if c = '.' then some cs else dropThroughFirstDot cs

/-- The portion of `l` before its last `'.'`, or `none` when `l` has no
dot. -/
def beforeLastDot (l : List Char) : Option (List Char) :=
  (dropThroughFirstDot l.reverse).map List.reverse

/-- Rust `Path::file_stem` on a single file-name component: the portion
before the last dot, where a dot in the leading position does not count
(so `".h"` is its own stem), and `".."` is returned whole. -/
def rustFileStem (s : String) : String :=
  if s = ".." then s
  else
    match s.data with
    | [] => s
    | c :: rest =>
      match beforeLastDot rest with
      | none => s
      | some pre => ⟨c :: pre⟩

/-- Rust `Path::file_stem` on a path given as components: the stem of the
final component; `none` for an empty path or a path ending in `".."`
(where Rust's `file_name` is `none`). -/
def rustFileStemOfPath (comps : List String) : Option String :=
  match comps.getLast? with
  | none => none
  | some last => if last = ".." then none else some (rustFileStem last)

/-- A statement produced by the external grammar.

Modelled from the spec: a `Statement` is "an opaque unit produced by the
(external) grammar from one AST entity plus the owning Config" whose only
role here is participation in structural equality, so it is represented by
an opaque token. -/
abbrev Stmt : Type := Nat

/-- Per-framework translation rules.

Modelled from the spec: `Config` is an external collaborator ("declarative
per-framework configuration loading" is out of scope); no claim depends on
its contents, so it is opaque. -/
structure Config where
  deriving DecidableEq, Inhabited

/-- A translated header file.

Modelled from the spec: a `File` "owns an ordered sequence of Statement,
order = AST encounter order"; `File::new` creates it empty. -/
structure File where
  stmts : List Stmt
  deriving DecidableEq

def File.new (_config : Config) : File := ⟨[]⟩

def File.add_stmt (f : File) (s : Stmt) : File := ⟨f.stmts ++ [s]⟩

/-- A per-framework library.

Modelled from the spec: a `Library` "owns a mapping from file-stem name to
File"; `Library::new` creates it empty. The `BTreeMap` is embedded as a
key-ordered association list. -/
structure Library where
  files : List (String × File)
  deriving DecidableEq

def Library.new : Library := ⟨[]⟩

/-- `BTreeMap::get`: the value at key `k`, if present. -/
def alGet {α : Type} : List (String × α) → String → Option α
  | [], _ => none
  | (k', v) :: rest, k => if k' = k then some v else alGet rest k

/-- `BTreeMap::entry(k).or_insert_with(v)`: keep an existing entry, else
insert `(k, v)` at its key-ordered position. -/
def alInsertWith {α : Type} (k : String) (v : α) : List (String × α) → List (String × α)
  | [] => [(k, v)]
  | (k', v') :: rest =>
    if k = k' then (k', v') :: rest
    else if k < k' then (k, v) :: (k', v') :: rest
    else (k', v') :: alInsertWith k v rest

/-- Writing through a `get_mut` reference: replace the value at the first
occurrence of key `k` (no change when `k` is absent). -/
def alSet {α : Type} : List (String × α) → String → α → List (String × α)
  | [], _, _ => []
  | (k', v') :: rest, k, v => if k' = k then (k', v) :: rest else (k', v') :: alSet rest k v

/-- The kind of a visited top-level entity (`clang::EntityKind`, restricted
to the kinds `parse_sdk` distinguishes). -/
inductive EntityKind : Type
  | inclusionDirective
  | macroExpansion
  | macroDefinition
  | other
  deriving DecidableEq

/-- A top-level AST entity as seen by the visitor: its kind, its resolved
source-file path (when it has a location), and its name (`get_name`,
used for inclusion directives). -/
structure Entity where
  kind : EntityKind
  location : Option (List String)
  name : Option String
  deriving DecidableEq

/-- `extract_framework_name` from `main.rs`: resolve the entity's source
path; when it falls under `framework_dir`, strip the `.framework` suffix
from the first remaining component for the library name and take the file
stem of the final component for the file name; any malformed shape panics
(modelled by `Except.error` carrying the `expect` message). -/
def extract_framework_name (entity : Entity) (framework_dir : List String) :
    Except String (Option (String × String)) :=
  match entity.location with
  | none => .ok none
  | some path =>
    match stripPrefixL framework_dir path with
    | none => .ok none
    | some comps =>
      match comps with
      | [] => .error "components next"
      | c0 :: rest =>
        match stripSuffix c0 ".framework" with
        | none => .error "framework fileending"
        | some library_name =>
          match rustFileStemOfPath rest with
          | none => .error "path file stem"
          | some file_name => .ok (some (library_name, file_name))

/-- The inclusion-directive arm of `parse_sdk`'s visitor: split the
included name on `'/'`; when the framework component equals
`library_name`, demand a second component with a `".h"` suffix and no
further segments (else panic), returning the included header stem when it
differs from `library_name` (`.ok none` when no file is to be created). -/
def inclusionAction (library_name name : String) : Except String (Option String) :=
  let parts := splitSlash name
  if parts.headD "" = library_name then
    match parts.get? 1 with
    | none => .error "inclusion name has file"
    | some second =>
      match stripSuffix second ".h" with
      | none => .error "inclusion name file is header"
      | some included =>
        if (parts.drop 2).length ≠ 0 then .error ("invalid inclusion of " ++ name)
        else if included ≠ library_name then .ok (some included)
        else .ok none
  else .ok none

/-- The visitor's mutable state in `parse_sdk`: the `preprocessing` flag
and the accumulated `BTreeMap<String, Library>`. -/
structure VisitState where
  preprocessing : Bool
  result : List (String × Library)
  deriving DecidableEq

/-- The inclusion-directive arm of the visitor closure in `parse_sdk`:
read the inclusion name (panic when absent), run `inclusionAction`, and on
a created header ensure its `File` exists via `entry().or_insert_with`. -/
def inclusionArm (st : VisitState) (library_name : String) (config : Config)
    (library : Library) (entity : Entity) : Except String VisitState :=
  match entity.name with
  | none => .error "inclusion name"
  | some nm =>
    match inclusionAction library_name nm with
    | .error e => .error e
    | .ok none => .ok st
    | .ok (some included) =>
      .ok { st with result := (alSet st.result library_name
              { library with files := alInsertWith included (File.new config) library.files }) }

/-- The declaration arm of the visitor closure in `parse_sdk`: leave the
`Preprocessing` state, look up the `File` for the entity's file stem
(panic when missing), and append the parsed statements to it in order. -/
def declArm (stmtParse : Entity → Config → List Stmt) (st : VisitState) (entity : Entity)
    (library_name file_name : String) (config : Config) (library : Library) :
    Except String VisitState :=
  match alGet library.files file_name with
  | none => .error "file"
  | some file =>
    .ok { preprocessing := false
          result := (alSet st.result library_name
            { library with files := (alSet library.files file_name
                ⟨file.stmts ++ stmtParse entity config⟩) }) }

/-- One step of the `visit_children` closure in `parse_sdk`, for one
top-level entity. `stmtParse` stands for the external grammar
`Stmt::parse`. Panics are modelled by `Except.error` with the
corresponding `expect`/`panic!` message. The match arms mirror the Rust
`match entity.get_kind()`, with the guarded arms named above. -/
def visitEntity (configs : List (String × Config)) (stmtParse : Entity → Config → List Stmt)
    (frameworkDir : List String) (st : VisitState) (entity : Entity) :
    Except String VisitState :=
  match extract_framework_name entity frameworkDir with
  | .error e => .error e
  | .ok none => .ok st
  | .ok (some (library_name, file_name)) =>
    match alGet configs library_name with
    | none => .ok st
    | some config =>
      match alGet st.result library_name with
      | none => .error "library"
      | some library =>
        match entity.kind, st.preprocessing with
        | .inclusionDirective, true => inclusionArm st library_name config library entity
        | .macroExpansion, true => .ok st
        | .macroDefinition, true => .ok st
        | _, _ => declArm stmtParse st entity library_name file_name config library

/-- The initial accumulator of `parse_sdk`: one empty `Library` per
configured framework. -/
def initResult (configs : List (String × Config)) : List (String × Library) :=
  configs.map fun p => (p.1, Library.new)

/-- The initial visitor state: `preprocessing = true` with the
pre-allocated result map. -/
def initState (configs : List (String × Config)) : VisitState :=
  ⟨true, initResult configs⟩

/-- The sequential `visit_children` traversal: visit each top-level entity
in source order, threading the state; a panic aborts the traversal. -/
def visitFold (configs : List (String × Config)) (stmtParse : Entity → Config → List Stmt)
    (frameworkDir : List String) : VisitState → List Entity → Except String VisitState
  | st, [] => .ok st
  | st, e :: es =>
    match visitEntity configs stmtParse frameworkDir st e with
    | .error msg => .error msg
    | .ok st1 => visitFold configs stmtParse frameworkDir st1 es

/-- `parse_sdk` from `main.rs`, abstracted over the translation unit: fold
the visitor over the top-level entities in order, starting from the
initial state, and return the accumulated result map. -/
def parse_sdk (configs : List (String × Config)) (stmtParse : Entity → Config → List Stmt)
    (frameworkDir : List String) (entities : List Entity) :
    Except String (List (String × Library)) :=
  (visitFold configs stmtParse frameworkDir (initState configs) entities).map
    VisitState.result

/-- Cross-target map comparison.

Modelled from the spec: `compare_btree` (in the `header_translator`
library crate, not under `src/`) walks the two `BTreeMap`s in parallel,
"requires identical key sets (else fatal)" and invokes the per-key
comparison, first mismatch aborting. -/
def compare_btree {α : Type} (m1 m2 : List (String × α))
    (f : String → α → α → Except String Unit) : Except String Unit :=
  match m1, m2 with
  | [], [] => .ok ()
  | (k1, v1) :: r1, (k2, v2) :: r2 =>
    if k1 = k2 then
      match f k1 v1 v2 with
      | .error e => .error e
      | .ok () => compare_btree r1 r2 f
    else .error "cross-target key set mismatch"
  | _, _ => .error "cross-target key set mismatch"

/-- Per-library comparison with the library name as diagnostic context.

Modelled from the spec: `Library::compare` "performs deep structural
equality over File sets and per-File Statement sequences" and "on first
mismatch, reports the offending Library name"; `compare_results` prints
the name before comparing, so the failure is attributed to it. -/
def libraryCompare (name : String) (l1 l2 : Library) : Except String Unit :=
  if l1 = l2 then .ok () else .error ("library mismatch: " ++ name)

/-- `compare_results` from `main.rs`: compare the two maps per library via
`compare_btree`, then the final `assert_eq!(data1, data2)`. -/
def compare_results (data1 data2 : List (String × Library)) : Except String Unit :=
  match compare_btree data1 data2 libraryCompare with
  | .error e => .error e
  | .ok () => if data1 = data2 then .ok () else .error "assert_eq data1 data2"

/-- The first framework name at which the two maps hold different
libraries, walking the common key structure in parallel. -/
def firstLibMismatch : List (String × Library) → List (String × Library) → Option String
  | (k1, v1) :: r1, (k2, v2) :: r2 =>
    if k1 = k2 then (if v1 = v2 then firstLibMismatch r1 r2 else some k1) else none
  | _, _ => none

/-- The platforms of `apple_sdk::Platform` distinguished by `main.rs`. -/
inductive Platform : Type
  | macOsX
  | iPhoneOs
  | otherPlatform
  deriving DecidableEq

/-- Display name of a platform, as interpolated into panic messages. -/
def Platform.name : Platform → String
  | .macOsX => "MacOsX"
  | .iPhoneOs => "IPhoneOs"
  | .otherPlatform => "Other"

/-- The static target-triple table of `main.rs`: `some` lists the enabled
triples of a platform; `none` models the `_ => continue` arm that skips
the platform entirely. -/
def llvm_targets_for : Platform → Option (List String)
  | .macOsX => some ["x86_64-apple-macosx10.7.0"]
  | .iPhoneOs => some []
  | .otherPlatform => none

/-- The body of the per-platform inner loop of `main`, with the mutable
`result` variable explicit: each parsed model is compared against the
stored model when one exists (the stored model is never replaced),
otherwise it is stored. -/
def platformLoopFrom (parse : String → List (String × Library)) :
    Option (List (String × Library)) → List String →
    Except String (Option (List (String × Library)))
  | result, [] => .ok result
  | result, llvmTarget :: rest =>
    let curr := parse llvmTarget
    match result with
    | some prev =>
      match compare_results prev curr with
      | .error e => .error e
      | .ok () => platformLoopFrom parse (some prev) rest
    | none => platformLoopFrom parse (some curr) rest

/-- The per-platform inner loop of `main`, started with no stored
result. -/
def platformLoop (parse : String → List (String × Library)) (llvmTargets : List String) :
    Except String (Option (List (String × Library))) :=
  platformLoopFrom parse none llvmTargets

/-- The per-platform loop as the spec words it: each triple's model is
diffed against the previous triple's result, and the platform's stored
result tracks the most recent triple. -/
def platformLoopSpecFrom (parse : String → List (String × Library)) :
    Option (List (String × Library)) → List String →
    Except String (Option (List (String × Library)))
  | result, [] => .ok result
  | result, llvmTarget :: rest =>
    let curr := parse llvmTarget
    match result with
    | some prev =>
      match compare_results prev curr with
      | .error e => .error e
      | .ok () => platformLoopSpecFrom parse (some curr) rest
    | none => platformLoopSpecFrom parse (some curr) rest

/-- The spec-worded per-platform loop, started with no stored result. -/
def platformLoopSpec (parse : String → List (String × Library)) (llvmTargets : List String) :
    Except String (Option (List (String × Library))) :=
  platformLoopSpecFrom parse none llvmTargets

/-- The outer loop of `main`: for each platform, skip it when the triple
table says `continue`, otherwise run the per-platform loop; the canonical
platform's (`MacOsX`) result becomes the final result handed to the output
stage. -/
def mainLoopFrom (parse : Platform → String → List (String × Library)) :
    Option (List (String × Library)) → List Platform →
    Except String (Option (List (String × Library)))
  | finalResult, [] => .ok finalResult
  | finalResult, platform :: rest =>
    match llvm_targets_for platform with
    | none => mainLoopFrom parse finalResult rest
    | some targets =>
      match platformLoop (parse platform) targets with
      | .error e => .error e
      | .ok result =>
        if platform = Platform.macOsX then mainLoopFrom parse result rest
        else mainLoopFrom parse finalResult rest

/-- The outer loop of `main`, started with no final result. -/
def mainLoop (parse : Platform → String → List (String × Library)) (sdks : List Platform) :
    Except String (Option (List (String × Library))) :=
  mainLoopFrom parse none sdks

/-- The outer loop as the spec words it, built on the spec-worded
per-platform loop. -/
def mainLoopSpecFrom (parse : Platform → String → List (String × Library)) :
    Option (List (String × Library)) → List Platform →
    Except String (Option (List (String × Library)))
  | finalResult, [] => .ok finalResult
  | finalResult, platform :: rest =>
    match llvm_targets_for platform with
    | none => mainLoopSpecFrom parse finalResult rest
    | some targets =>
      match platformLoopSpec (parse platform) targets with
      | .error e => .error e
      | .ok result =>
        if platform = Platform.macOsX then mainLoopSpecFrom parse result rest
        else mainLoopSpecFrom parse finalResult rest

/-- The spec-worded outer loop, started with no final result. -/
def mainLoopSpec (parse : Platform → String → List (String × Library)) (sdks : List Platform) :
    Except String (Option (List (String × Library))) :=
  mainLoopSpecFrom parse none sdks

/-- An SDK candidate as seen by the discovery loop in `main`: whether the
directory entry is a symlink, its declared platform, and its path. -/
structure SdkCand where
  isSymlink : Bool
  platform : Platform
  path : String
  deriving DecidableEq

/-- The per-platform SDK discovery step of `main`: keep the candidates
that are not symlinks and whose declared platform matches; panic naming
the platform unless exactly one remains. -/
def find_sdk (platform : Platform) (cands : List SdkCand) : Except String SdkCand :=
  let sdks := cands.filter fun sdk => !sdk.isSymlink && sdk.platform == platform
  if sdks.length ≠ 1 then .error ("found multiple sdks in " ++ platform.name)
  else
    match sdks with
    | sdk :: _ => .ok sdk
    | [] => .error ("found multiple sdks in " ++ platform.name)

/-- The self-exclusion invariant of the visitor: no library ever holds a
file keyed by its own framework name. -/
def NoSelfFile (st : VisitState) : Prop :=
  ∀ name library, alGet st.result name = some library → alGet library.files name = none

/-! ### Association-list lemmas -/

theorem alGet_alSet_self {α : Type} (m : List (String × α)) (k : String) (v w : α)
    (h : alGet m k = some w) : alGet (alSet m k v) k = some v := by
  induction m with
  | nil => simp [alGet] at h
  | cons p rest ih =>
    obtain ⟨k', v'⟩ := p
    by_cases hk : k' = k
    · simp [alGet, alSet, hk]
    · simp only [alGet, alSet, if_neg hk] at h ⊢
      exact ih h

theorem alGet_alSet_ne {α : Type} (m : List (String × α)) (k : String) (v : α) (n : String)
    (hne : k ≠ n) : alGet (alSet m k v) n = alGet m n := by
  induction m with
  | nil => simp [alGet, alSet]
  | cons p rest ih =>
    obtain ⟨k', v'⟩ := p
    by_cases hk : k' = k
    · subst hk
      simp [alGet, alSet, hne]
    · simp only [alSet, if_neg hk, alGet]
      by_cases hn : k' = n
      · simp [hn]
      · simp [hn, ih]

theorem alSet_self_eq {α : Type} (m : List (String × α)) (k : String) (v : α)
    (h : alGet m k = some v) : alSet m k v = m := by
  induction m with
  | nil => simp [alGet] at h
  | cons p rest ih =>
    obtain ⟨k', v'⟩ := p
    by_cases hk : k' = k
    · simp only [alGet, if_pos hk] at h
      obtain rfl : v' = v := Option.some.inj h
      simp [alSet, hk]
    · simp only [alGet, if_neg hk] at h
      simp [alSet, hk, ih h]

theorem alSet_absent {α : Type} (m : List (String × α)) (k : String) (v : α)
    (h : alGet m k = none) : alSet m k v = m := by
  induction m with
  | nil => simp [alSet]
  | cons p rest ih =>
    obtain ⟨k', v'⟩ := p
    by_cases hk : k' = k
    · simp [alGet, hk] at h
    · simp only [alGet, if_neg hk] at h
      simp [alSet, hk, ih h]

theorem alSet_keys {α : Type} (m : List (String × α)) (k : String) (v : α) :
    (alSet m k v).map Prod.fst = m.map Prod.fst := by
  induction m with
  | nil => simp [alSet]
  | cons p rest ih =>
    obtain ⟨k', v'⟩ := p
    by_cases hk : k' = k
    · simp [alSet, hk]
    · simp [alSet, hk, ih]

theorem alGet_none_alSet {α : Type} (m : List (String × α)) (k : String) (v : α) (n : String)
    (h : alGet m n = none) : alGet (alSet m k v) n = none := by
  by_cases hk : k = n
  · subst hk
    rw [alSet_absent m k v h]
    exact h
  · rw [alGet_alSet_ne m k v n hk]
    exact h

theorem alGet_alInsertWith_none {α : Type} (m : List (String × α)) (k : String) (v : α)
    (h : alGet m k = none) : alGet (alInsertWith k v m) k = some v := by
  induction m with
  | nil => simp [alInsertWith, alGet]
  | cons p rest ih =>
    obtain ⟨k', v'⟩ := p
    by_cases hk : k' = k
    · simp [alGet, hk] at h
    · simp only [alGet, if_neg hk] at h
      have hk2 : ¬ k = k' := fun hh => hk hh.symm
      by_cases hlt : k < k'
      · simp only [alInsertWith, if_neg hk2, if_pos hlt, alGet]
        simp
      · simp only [alInsertWith, if_neg hk2, if_neg hlt, alGet, if_neg hk]
        exact ih h

theorem alGet_alInsertWith_ne {α : Type} (m : List (String × α)) (k : String) (v : α) (n : String)
    (hne : k ≠ n) : alGet (alInsertWith k v m) n = alGet m n := by
  induction m with
  | nil => simp [alInsertWith, alGet, hne]
  | cons p rest ih =>
    obtain ⟨k', v'⟩ := p
    by_cases hk : k = k'
    · simp [alInsertWith, hk]
    · by_cases hlt : k < k'
      · simp only [alInsertWith, if_neg hk, if_pos hlt, alGet, if_neg hne]
      · simp only [alInsertWith, if_neg hk, if_neg hlt, alGet]
        by_cases hn : k' = n
        · simp [hn]
        · simp [hn, ih]

theorem alInsertWith_idem {α : Type} (k : String) (v : α) (m : List (String × α)) :
    alInsertWith k v (alInsertWith k v m) = alInsertWith k v m := by
  induction m with
  | nil => simp [alInsertWith]
  | cons p rest ih =>
    obtain ⟨k', v'⟩ := p
    by_cases hk : k = k'
    · simp [alInsertWith, hk]
    · by_cases hlt : k < k'
      · simp only [alInsertWith, if_neg hk, if_pos hlt]
        simp [alInsertWith]
      · simp only [alInsertWith, if_neg hk, if_neg hlt]
        simp only [alInsertWith, if_neg hk, if_neg hlt, ih]

theorem alInsertWith_keys_absent {α : Type} (m : List (String × α)) (k : String) (v : α)
    (h : alGet m k = none) :
    ∀ n, alGet (alInsertWith k v m) n = if k = n then some v else alGet m n := by
  intro n
  by_cases hn : k = n
  · subst hn
    simp [alGet_alInsertWith_none m k v h]
  · simp [hn, alGet_alInsertWith_ne m k v n hn]

/-! ### Structure of one visitor step -/

theorem inclusionAction_ok_some_ne (library_name name included : String)
    (h : inclusionAction library_name name = .ok (some included)) : included ≠ library_name := by
  simp only [inclusionAction] at h
  split at h
  · split at h
    · cases h
    · split at h
      · cases h
      · split at h
        · cases h
        · split at h
          · rename_i hne
            obtain rfl := Option.some.inj (Except.ok.inj h)
            exact hne
          · simp at h
  · simp at h

theorem inclusionArm_shape (st : VisitState) (library_name : String) (config : Config)
    (library : Library) (e : Entity) (st' : VisitState)
    (h : inclusionArm st library_name config library e = .ok st') :
    st' = st ∨ ∃ included, included ≠ library_name ∧
      st' = { st with result := (alSet st.result library_name
               { library with files := alInsertWith included (File.new config) library.files }) } := by
  unfold inclusionArm at h
  split at h
  · cases h
  · split at h
    · cases h
    · exact Or.inl (Except.ok.inj h).symm
    · rename_i included hincl
      exact Or.inr ⟨included, inclusionAction_ok_some_ne _ _ _ hincl, (Except.ok.inj h).symm⟩

theorem declArm_shape (stmtParse : Entity → Config → List Stmt) (st : VisitState) (e : Entity)
    (library_name file_name : String) (config : Config) (library : Library) (st' : VisitState)
    (h : declArm stmtParse st e library_name file_name config library = .ok st') :
    ∃ file, alGet library.files file_name = some file ∧
      st' = { preprocessing := false
              result := (alSet st.result library_name
                { library with files := (alSet library.files file_name
                    ⟨file.stmts ++ stmtParse e config⟩) }) } := by
  unfold declArm at h
  split at h
  · cases h
  · rename_i file hfile
    exact ⟨file, hfile, (Except.ok.inj h).symm⟩

theorem declArm_missing (stmtParse : Entity → Config → List Stmt) (st : VisitState) (e : Entity)
    (library_name file_name : String) (config : Config) (library : Library)
    (h : alGet library.files file_name = none) :
    declArm stmtParse st e library_name file_name config library = .error "file" := by
  simp [declArm, h]

theorem visitEntity_ok_shape (configs : List (String × Config))
    (stmtParse : Entity → Config → List Stmt) (frameworkDir : List String)
    (st : VisitState) (e : Entity) (st' : VisitState)
    (h : visitEntity configs stmtParse frameworkDir st e = .ok st') :
    st' = st ∨
    (∃ lib config library included, alGet configs lib = some config ∧
        alGet st.result lib = some library ∧ included ≠ lib ∧ st.preprocessing = true ∧
        st' = { st with result := (alSet st.result lib
                 { library with files := alInsertWith included (File.new config) library.files }) }) ∨
    (∃ lib fname config library file, alGet configs lib = some config ∧
        alGet st.result lib = some library ∧ alGet library.files fname = some file ∧
        st' = { preprocessing := false
                result := (alSet st.result lib
                  { library with files := (alSet library.files fname
                      ⟨file.stmts ++ stmtParse e config⟩) }) }) := by
  unfold visitEntity at h
  split at h
  · cases h
  · exact Or.inl (Except.ok.inj h).symm
  · rename_i library_name file_name hx
    split at h
    · exact Or.inl (Except.ok.inj h).symm
    · rename_i config hconfig
      split at h
      · cases h
      · rename_i library hlibrary
        split at h
        · rename_i hkind hpre
          rcases inclusionArm_shape _ _ _ _ _ _ h with h1 | ⟨included, hne, h2⟩
          · exact Or.inl h1
          · exact Or.inr (Or.inl ⟨library_name, config, library, included,
              hconfig, hlibrary, hne, hpre, h2⟩)
        · exact Or.inl (Except.ok.inj h).symm
        · exact Or.inl (Except.ok.inj h).symm
        · obtain ⟨file, hfile, h2⟩ := declArm_shape _ _ _ _ _ _ _ _ h
          exact Or.inr (Or.inr ⟨library_name, file_name, config, library, file,
            hconfig, hlibrary, hfile, h2⟩)

theorem visitEntity_keys_eq (configs : List (String × Config))
    (stmtParse : Entity → Config → List Stmt) (frameworkDir : List String)
    (st : VisitState) (e : Entity) (st' : VisitState)
    (h : visitEntity configs stmtParse frameworkDir st e = .ok st') :
    st'.result.map Prod.fst = st.result.map Prod.fst := by
  rcases visitEntity_ok_shape _ _ _ _ _ _ h with rfl | ⟨lib, c, l, i, _, _, _, _, rfl⟩ |
      ⟨lib, f, c, l, fl, _, _, _, rfl⟩
  · rfl
  · exact alSet_keys _ _ _
  · exact alSet_keys _ _ _

theorem visitEntity_pre_mono (configs : List (String × Config))
    (stmtParse : Entity → Config → List Stmt) (frameworkDir : List String)
    (st : VisitState) (e : Entity) (st' : VisitState)
    (h : visitEntity configs stmtParse frameworkDir st e = .ok st')
    (hp : st.preprocessing = false) : st'.preprocessing = false := by
  rcases visitEntity_ok_shape _ _ _ _ _ _ h with rfl | ⟨lib, c, l, i, _, _, _, _, rfl⟩ |
      ⟨lib, f, c, l, fl, _, _, _, rfl⟩
  · exact hp
  · exact hp
  · rfl

theorem visitEntity_noSelfFile (configs : List (String × Config))
    (stmtParse : Entity → Config → List Stmt) (frameworkDir : List String)
    (st : VisitState) (e : Entity) (st' : VisitState)
    (hns : NoSelfFile st)
    (h : visitEntity configs stmtParse frameworkDir st e = .ok st') : NoSelfFile st' := by
  rcases visitEntity_ok_shape _ _ _ _ _ _ h with rfl |
      ⟨lib, c, l, i, hc, hl, hne, hpre, rfl⟩ | ⟨lib, f, c, l, fl, hc, hl, hf, rfl⟩
  · exact hns
  · intro name library hget
    by_cases hn : lib = name
    · subst hn
      rw [alGet_alSet_self _ _ _ _ hl] at hget
      obtain rfl := Option.some.inj hget
      show alGet (alInsertWith i (File.new c) l.files) lib = none
      rw [alGet_alInsertWith_ne _ _ _ _ (fun hh => hne (hh.trans rfl))]
      exact hns lib l hl
    · rw [alGet_alSet_ne _ _ _ _ hn] at hget
      exact hns name library hget
  · intro name library hget
    by_cases hn : lib = name
    · subst hn
      rw [alGet_alSet_self _ _ _ _ hl] at hget
      obtain rfl := Option.some.inj hget
      show alGet (alSet l.files f ⟨fl.stmts ++ stmtParse e c⟩) lib = none
      exact alGet_none_alSet _ _ _ _ (hns lib l hl)
    · rw [alGet_alSet_ne _ _ _ _ hn] at hget
      exact hns name library hget

theorem visitEntity_macro_noop (configs : List (String × Config))
    (stmtParse : Entity → Config → List Stmt) (frameworkDir : List String)
    (st : VisitState) (e : Entity) (st' : VisitState)
    (hpre : st.preprocessing = true)
    (hkind : e.kind = .macroExpansion ∨ e.kind = .macroDefinition)
    (h : visitEntity configs stmtParse frameworkDir st e = .ok st') : st' = st := by
  unfold visitEntity at h
  split at h
  · cases h
  · exact (Except.ok.inj h).symm
  · split at h
    · exact (Except.ok.inj h).symm
    · split at h
      · cases h
      · split at h
        · rename_i hk hp
          rcases hkind with hk2 | hk2 <;> rw [hk] at hk2 <;> cases hk2
        · exact (Except.ok.inj h).symm
        · exact (Except.ok.inj h).symm
        · exfalso
          rcases hkind with hk2 | hk2 <;> simp_all

theorem visitFold_inv (configs : List (String × Config))
    (stmtParse : Entity → Config → List Stmt) (frameworkDir : List String)
    (P : VisitState → Prop)
    (hstep : ∀ st e st', P st →
      visitEntity configs stmtParse frameworkDir st e = .ok st' → P st') :
    ∀ (es : List Entity) (st st' : VisitState),
      visitFold configs stmtParse frameworkDir st es = .ok st' → P st → P st' := by
  intro es
  induction es with
  | nil =>
    intro st st' h hp
    rw [show st' = st from (Except.ok.inj h).symm]
    exact hp
  | cons e es ih =>
    intro st st' h hp
    unfold visitFold at h
    split at h
    · cases h
    · rename_i st1 hv
      exact ih st1 st' h (hstep st e st1 hp hv)

/-! ### Cross-target comparison -/

theorem compare_btree_refl (d : List (String × Library)) :
    compare_btree d d libraryCompare = .ok () := by
  induction d with
  | nil => rfl
  | cons p rest ih =>
    obtain ⟨k, v⟩ := p
    simp [compare_btree, libraryCompare, ih]

theorem compare_results_ok_iff (d1 d2 : List (String × Library)) :
    compare_results d1 d2 = .ok () ↔ d1 = d2 := by
  constructor
  · intro h
    unfold compare_results at h
    split at h
    · cases h
    · split at h
      · assumption
      · cases h
  · rintro rfl
    unfold compare_results
    rw [compare_btree_refl]
    simp

theorem compare_btree_firstMismatch (d1 : List (String × Library)) :
    ∀ (d2 : List (String × Library)) (n : String), firstLibMismatch d1 d2 = some n →
      compare_btree d1 d2 libraryCompare = .error ("library mismatch: " ++ n) := by
  induction d1 with
  | nil => intro d2 n h; cases d2 <;> simp [firstLibMismatch] at h
  | cons p r1 ih =>
    intro d2 n h
    obtain ⟨k1, v1⟩ := p
    cases d2 with
    | nil => simp [firstLibMismatch] at h
    | cons q r2 =>
      obtain ⟨k2, v2⟩ := q
      unfold firstLibMismatch at h
      by_cases hk : k1 = k2
      · rw [if_pos hk] at h
        by_cases hv : v1 = v2
        · rw [if_pos hv] at h
          subst hk
          subst hv
          simp [compare_btree, libraryCompare, ih _ _ h]
        · rw [if_neg hv] at h
          obtain rfl := Option.some.inj h
          subst hk
          simp [compare_btree, libraryCompare, hv]
      · rw [if_neg hk] at h
        cases h

theorem compare_results_mismatch (d1 d2 : List (String × Library)) (n : String)
    (h : firstLibMismatch d1 d2 = some n) :
    compare_results d1 d2 = .error ("library mismatch: " ++ n) := by
  unfold compare_results
  rw [compare_btree_firstMismatch d1 d2 n h]

/-! ### Driver refinement -/

theorem platformLoopFrom_eq_spec (parse : String → List (String × Library)) :
    ∀ (ts : List String) (prev : Option (List (String × Library))),
      platformLoopFrom parse prev ts = platformLoopSpecFrom parse prev ts := by
  intro ts
  induction ts with
  | nil => intro prev; rfl
  | cons t rest ih =>
    intro prev
    cases prev with
    | none => simp [platformLoopFrom, platformLoopSpecFrom, ih]
    | some p =>
      unfold platformLoopFrom platformLoopSpecFrom
      simp only
      cases hc : compare_results p (parse t) with
      | error e => rfl
      | ok u =>
        cases u
        obtain rfl : p = parse t := (compare_results_ok_iff _ _).mp hc
        exact ih _

theorem platformLoop_eq_spec (parse : String → List (String × Library)) (ts : List String) :
    platformLoop parse ts = platformLoopSpec parse ts :=
  platformLoopFrom_eq_spec parse ts none

theorem mainLoopFrom_eq_spec (parse : Platform → String → List (String × Library)) :
    ∀ (sdks : List Platform) (acc : Option (List (String × Library))),
      mainLoopFrom parse acc sdks = mainLoopSpecFrom parse acc sdks := by
  intro sdks
  induction sdks with
  | nil => intro acc; rfl
  | cons p rest ih =>
    intro acc
    unfold mainLoopFrom mainLoopSpecFrom
    cases hl : llvm_targets_for p with
    | none => simp only [ih]
    | some targets =>
      simp only
      rw [platformLoop_eq_spec]
      cases hres : platformLoopSpec (parse p) targets with
      | error e => rfl
      | ok result =>
        by_cases hp : p = Platform.macOsX
        · simp only [if_pos hp, ih]
        · simp only [if_neg hp, ih]

theorem alGet_initResult (configs : List (String × Config)) (n : String) :
    alGet (initResult configs) n = (alGet configs n).map fun _ => Library.new := by
  induction configs with
  | nil => simp [initResult, alGet]
  | cons p rest ih =>
    obtain ⟨k, c⟩ := p
    by_cases h : k = n
    · simp [initResult, alGet, h]
    · simp only [initResult, List.map_cons, alGet, if_neg h] at ih ⊢
      exact ih

theorem initState_noSelfFile (configs : List (String × Config)) :
    NoSelfFile (initState configs) := by
  intro name library hget
  simp only [initState, alGet_initResult] at hget
  cases halg : alGet configs name with
  | none => rw [halg] at hget; cases hget
  | some c =>
    rw [halg] at hget
    obtain rfl := Option.some.inj hget
    rfl

/-! ### Path and file-stem lemmas -/

theorem stripPrefixL_append {α : Type} [DecidableEq α] (p r : List α) :
    stripPrefixL p (p ++ r) = some r := by
  induction p with
  | nil => rfl
  | cons a pre ih => simp [stripPrefixL, ih]

theorem stripSuffix_append (a s : String) : stripSuffix (a ++ s) s = some a := by
  unfold stripSuffix stripSuffixL
  rw [String.data_append, List.reverse_append, stripPrefixL_append]
  simp

theorem beforeLastDot_dot_h (l : List Char) : beforeLastDot (l ++ ['.', 'h']) = some l := by
  unfold beforeLastDot
  rw [List.reverse_append]
  simp [dropThroughFirstDot]

theorem append_h_ne_dotdot (bar : String) : bar ++ ".h" ≠ ".." := by
  intro h
  have hd : bar.data ++ ['.', 'h'] = ['.', '.'] := by
    have hda := congrArg String.data h
    rwa [String.data_append] at hda
  have hnil : bar.data = [] := by
    have hlen := congrArg List.length hd
    simp only [List.length_append, List.length_cons, List.length_nil] at hlen
    exact List.length_eq_zero.mp (by omega)
  rw [hnil] at hd
  exact absurd hd (by decide)

theorem rustFileStem_append_h (bar : String) (hb : bar ≠ "") :
    rustFileStem (bar ++ ".h") = bar := by
  obtain ⟨lb⟩ := bar
  have hlb : lb ≠ [] := fun hh => hb (by rw [hh])
  cases lb with
  | nil => exact absurd rfl hlb
  | cons c cs =>
    unfold rustFileStem
    rw [if_neg (append_h_ne_dotdot _)]
    have hd : (String.mk (c :: cs) ++ ".h").data = c :: (cs ++ ['.', 'h']) := by
      rw [String.data_append]
      rfl
    simp only [hd, beforeLastDot_dot_h]

theorem rustFileStemOfPath_headers (bar : String) (hb : bar ≠ "") :
    rustFileStemOfPath ["Headers", bar ++ ".h"] = some bar := by
  have hlast : (["Headers", bar ++ ".h"] : List String).getLast? = some (bar ++ ".h") := rfl
  unfold rustFileStemOfPath
  simp only [hlast]
  rw [if_neg (append_h_ne_dotdot bar)]
  rw [rustFileStem_append_h bar hb]

theorem inclusionAction_two (lib nm hdrfile hdr : String)
    (hsplit : splitSlash nm = [lib, hdrfile])
    (hstrip : stripSuffix hdrfile ".h" = some hdr) :
    inclusionAction lib nm = if hdr = lib then .ok none else .ok (some hdr) := by
  simp only [inclusionAction, hsplit]
  by_cases h : hdr = lib
  · simp [hstrip, h]
  · simp [hstrip, h]

theorem inclusionAction_noSuffix (lib nm hdrfile : String) (rest : List String)
    (hsplit : splitSlash nm = lib :: hdrfile :: rest)
    (hstrip : stripSuffix hdrfile ".h" = none) :
    inclusionAction lib nm = .error "inclusion name file is header" := by
  simp only [inclusionAction, hsplit]
  simp [hstrip]

theorem inclusionAction_extraSeg (lib nm hdrfile x : String) (rest : List String)
    (hsplit : splitSlash nm = lib :: hdrfile :: rest)
    (hstrip : stripSuffix hdrfile ".h" = some x) (hrest : rest ≠ []) :
    inclusionAction lib nm = .error ("invalid inclusion of " ++ nm) := by
  simp only [inclusionAction, hsplit]
  have hlen : rest.length ≠ 0 := fun h0 => hrest (List.length_eq_zero.mp h0)
  simp [hstrip, hlen]

theorem visitEntity_decl_red (configs : List (String × Config))
    (stmtParse : Entity → Config → List Stmt) (frameworkDir : List String)
    (st : VisitState) (e : Entity) (lib fname : String) (config : Config) (library : Library)
    (hx : extract_framework_name e frameworkDir = .ok (some (lib, fname)))
    (hc : alGet configs lib = some config)
    (hl : alGet st.result lib = some library)
    (harm : (e.kind = .inclusionDirective ∨ e.kind = .macroExpansion ∨
        e.kind = .macroDefinition) → st.preprocessing = false) :
    visitEntity configs stmtParse frameworkDir st e =
      declArm stmtParse st e lib fname config library := by
  simp only [visitEntity, hx, hc, hl]
  cases hk : e.kind with
  | inclusionDirective => rw [harm (Or.inl hk)]
  | macroExpansion => rw [harm (Or.inr (Or.inl hk))]
  | macroDefinition => rw [harm (Or.inr (Or.inr hk))]
  | other => cases hp : st.preprocessing <;> rfl

theorem visitEntity_incl_red (configs : List (String × Config))
    (stmtParse : Entity → Config → List Stmt) (frameworkDir : List String)
    (st : VisitState) (e : Entity) (lib fname : String) (config : Config) (library : Library)
    (hpre : st.preprocessing = true)
    (hkind : e.kind = .inclusionDirective)
    (hx : extract_framework_name e frameworkDir = .ok (some (lib, fname)))
    (hc : alGet configs lib = some config)
    (hl : alGet st.result lib = some library) :
    visitEntity configs stmtParse frameworkDir st e = inclusionArm st lib config library e := by
  simp only [visitEntity, hx, hc, hl, hkind, hpre]

/-! ### Claim theorems -/

/-- C1: for every platform the pipeline driver parses and visits the
enabled target triples in order, diffs each triple's parsed model against
the previous triple's result value for that platform, and hands the
canonical (`MacOsX`) platform's result to the output stage: the per-platform
loop and the whole driver loop of `main` are extensionally equal to the
loops written exactly as the spec describes them (consecutive diffing with
the running result tracking the latest triple). -/
theorem claim_C1_driver (parse : Platform → String → List (String × Library))
    (sdks : List Platform) (p : String → List (String × Library)) (ts : List String) :
    platformLoop p ts = platformLoopSpec p ts ∧ mainLoop parse sdks = mainLoopSpec parse sdks :=
  ⟨platformLoop_eq_spec p ts, mainLoopFrom_eq_spec parse sdks none⟩

/-- C2: the cross-target comparison accepts exactly equal models (identical
key structure and deep structural equality of every library's files and
statements); any divergence is fatal for the run, and the first per-library
value mismatch is reported naming the offending library. -/
theorem claim_C2_compare (d1 d2 : List (String × Library)) :
    (compare_results d1 d2 = .ok () ↔ d1 = d2) ∧
    (d1 ≠ d2 → ∃ e, compare_results d1 d2 = .error e) ∧
    (∀ n, firstLibMismatch d1 d2 = some n →
        compare_results d1 d2 = .error ("library mismatch: " ++ n)) := by
  refine ⟨compare_results_ok_iff d1 d2, ?_, fun n h => compare_results_mismatch d1 d2 n h⟩
  intro hne
  cases hr : compare_results d1 d2 with
  | error e => exact ⟨e, rfl⟩
  | ok u =>
    cases u
    exact absurd ((compare_results_ok_iff d1 d2).mp hr) hne

/-- Witness for C2: injecting one extra statement into one library's file
makes the comparison fail naming that library. -/
theorem claim_C2_compare_witness :
    compare_results [("Foo", ⟨[("Bar", ⟨[1]⟩)]⟩)] [("Foo", ⟨[("Bar", ⟨[1, 2]⟩)]⟩)] =
      .error ("library mismatch: " ++ "Foo") :=
  (claim_C2_compare _ _).2.2 "Foo" (by decide)

/-- C9: per-platform SDK discovery filters out symlinked candidates and
candidates whose declared platform disagrees, then succeeds exactly when
one candidate remains; zero or two-or-more remaining candidates fail with
an error naming the platform. -/
theorem claim_C9_sdk_discovery (platform : Platform) (cands : List SdkCand) :
    ((cands.filter fun sdk => !sdk.isSymlink && sdk.platform == platform).length = 1 →
      ∃ s, find_sdk platform cands = .ok s ∧
        (cands.filter fun sdk => !sdk.isSymlink && sdk.platform == platform) = [s]) ∧
    ((cands.filter fun sdk => !sdk.isSymlink && sdk.platform == platform).length ≠ 1 →
      find_sdk platform cands = .error ("found multiple sdks in " ++ platform.name)) := by
  constructor
  · intro hlen
    obtain ⟨sdk, hs⟩ := List.length_eq_one.mp hlen
    refine ⟨sdk, ?_, hs⟩
    simp only [find_sdk, hs]
    simp
  · intro hlen
    simp only [find_sdk]
    rw [if_pos hlen]

/-- Witness for C9: an empty candidate list fails naming the platform, and
a unique matching candidate is returned. -/
theorem claim_C9_sdk_discovery_witness :
    find_sdk Platform.macOsX [] =
      .error ("found multiple sdks in " ++ Platform.name Platform.macOsX) ∧
    (∃ s, find_sdk Platform.macOsX
        [⟨true, Platform.macOsX, "p1"⟩, ⟨false, Platform.macOsX, "p2"⟩,
          ⟨false, Platform.iPhoneOs, "p3"⟩] = .ok s ∧
      ([⟨true, Platform.macOsX, "p1"⟩, ⟨false, Platform.macOsX, "p2"⟩,
          ⟨false, Platform.iPhoneOs, "p3"⟩] : List SdkCand).filter
        (fun sdk => !sdk.isSymlink && sdk.platform == Platform.macOsX) = [s]) :=
  ⟨(claim_C9_sdk_discovery Platform.macOsX []).2 (by decide),
   (claim_C9_sdk_discovery Platform.macOsX _).1 (by decide)⟩

/-- C5: the engine starts every parse in the `Preprocessing` state; a
macro-definition or macro-expansion entity visited while preprocessing
leaves the whole visitor state unchanged (no model effect, no state flip);
and once the state has left `Preprocessing` it never returns within a
parse. -/
theorem claim_C5_state_machine (configs : List (String × Config))
    (stmtParse : Entity → Config → List Stmt) (frameworkDir : List String) :
    (initState configs).preprocessing = true ∧
    (∀ st e st', st.preprocessing = true →
        (e.kind = .macroExpansion ∨ e.kind = .macroDefinition) →
        visitEntity configs stmtParse frameworkDir st e = .ok st' → st' = st) ∧
    (∀ st e st', visitEntity configs stmtParse frameworkDir st e = .ok st' →
        st.preprocessing = false → st'.preprocessing = false) :=
  ⟨rfl,
   fun _ e st' hpre hkind h => visitEntity_macro_noop _ _ _ _ e st' hpre hkind h,
   fun _ e st' h hp => visitEntity_pre_mono _ _ _ _ e st' h hp⟩

/-- Witness for C5: a macro definition inside a tracked framework header,
visited while preprocessing, returns the state unchanged; and a no-op step
keeps the `Declarations` state. -/
theorem claim_C5_state_machine_witness :
    ((⟨true, [("Foo", Library.new)]⟩ : VisitState) = ⟨true, [("Foo", Library.new)]⟩) ∧
    VisitState.preprocessing ⟨false, [("Foo", Library.new)]⟩ = false :=
  ⟨(claim_C5_state_machine [("Foo", ⟨⟩)] (fun _ _ => []) ["r"]).2.1
      ⟨true, [("Foo", Library.new)]⟩
      ⟨.macroDefinition, some ["r", "Foo.framework", "Headers", "Bar.h"], none⟩
      ⟨true, [("Foo", Library.new)]⟩ rfl (Or.inr rfl) (by decide),
   (claim_C5_state_machine [("Foo", ⟨⟩)] (fun _ _ => []) ["r"]).2.2
      ⟨false, [("Foo", Library.new)]⟩ ⟨.other, none, none⟩
      ⟨false, [("Foo", Library.new)]⟩ (by decide) rfl⟩

/-- C6: the result map's key set equals the `Config` key set: one empty
library per configured framework is pre-allocated, the traversal never
adds or removes keys, and any successful parse returns exactly that key
set. -/
theorem claim_C6_key_invariant (configs : List (String × Config))
    (stmtParse : Entity → Config → List Stmt) (frameworkDir : List String) :
    (∀ n, alGet (initResult configs) n = (alGet configs n).map fun _ => Library.new) ∧
    (∀ entities r, parse_sdk configs stmtParse frameworkDir entities = .ok r →
        r.map Prod.fst = configs.map Prod.fst) := by
  refine ⟨alGet_initResult configs, ?_⟩
  intro entities r h
  unfold parse_sdk at h
  cases hv : visitFold configs stmtParse frameworkDir (initState configs) entities with
  | error msg => rw [hv] at h; cases h
  | ok stf =>
    rw [hv] at h
    obtain rfl : stf.result = r := Except.ok.inj h
    have hinv := visitFold_inv configs stmtParse frameworkDir
      (fun st => st.result.map Prod.fst = configs.map Prod.fst)
      (fun st e st' hp hstep => (visitEntity_keys_eq _ _ _ _ _ _ hstep).trans hp)
      entities (initState configs) stf hv ?_
    · exact hinv
    · show (initResult configs).map Prod.fst = configs.map Prod.fst
      simp [initResult]

/-- Witness for C6: the end-to-end example parse returns a map whose key
list equals the config key list. -/
theorem claim_C6_key_invariant_witness :
    List.map Prod.fst [("Foo", Library.mk [("Bar", File.mk [7])])] =
      List.map Prod.fst [("Foo", Config.mk)] :=
  (claim_C6_key_invariant [("Foo", ⟨⟩)] (fun _ _ => [7]) ["r"]).2
    [⟨.inclusionDirective, some ["r", "Foo.framework", "Headers", "Foo.h"], some "Foo/Bar.h"⟩,
     ⟨.other, some ["r", "Foo.framework", "Headers", "Bar.h"], none⟩]
    [("Foo", ⟨[("Bar", ⟨[7]⟩)]⟩)] (by decide)

/-- C10: no library ever holds a file keyed by its own name (self-named
inclusions are excluded from file creation), so a declaration entity whose
file stem equals its framework name — the framework's own umbrella
header — always fails fatally at the mandatory file lookup. -/
theorem claim_C10_umbrella_decl_fatal (configs : List (String × Config))
    (stmtParse : Entity → Config → List Stmt) (frameworkDir : List String) :
    NoSelfFile (initState configs) ∧
    (∀ st e st', NoSelfFile st →
        visitEntity configs stmtParse frameworkDir st e = .ok st' → NoSelfFile st') ∧
    (∀ st e lib config library, NoSelfFile st →
        extract_framework_name e frameworkDir = .ok (some (lib, lib)) →
        alGet configs lib = some config →
        alGet st.result lib = some library →
        ((e.kind = .inclusionDirective ∨ e.kind = .macroExpansion ∨
            e.kind = .macroDefinition) → st.preprocessing = false) →
        visitEntity configs stmtParse frameworkDir st e = .error "file") := by
  refine ⟨initState_noSelfFile configs, ?_, ?_⟩
  · exact fun st e st' hns h => visitEntity_noSelfFile _ _ _ _ _ _ hns h
  · intro st e lib config library hns hx hc hl harm
    have hfile : alGet library.files lib = none := hns lib library hl
    simp only [visitEntity, hx, hc, hl]
    cases hk : e.kind with
    | inclusionDirective =>
      rw [harm (Or.inl hk)]
      exact declArm_missing _ _ _ _ _ _ _ hfile
    | macroExpansion =>
      rw [harm (Or.inr (Or.inl hk))]
      exact declArm_missing _ _ _ _ _ _ _ hfile
    | macroDefinition =>
      rw [harm (Or.inr (Or.inr hk))]
      exact declArm_missing _ _ _ _ _ _ _ hfile
    | other =>
      cases hp : st.preprocessing <;> exact declArm_missing _ _ _ _ _ _ _ hfile

/-- Witness for C10: a declaration located in the umbrella header
`Foo.framework/Headers/Foo.h`, visited after an own-framework inclusion of
`Foo/Bar.h`, panics with the missing-file message. -/
theorem claim_C10_umbrella_decl_fatal_witness :
    visitEntity [("Foo", ⟨⟩)] (fun _ _ => [7]) ["r"]
      ⟨true, [("Foo", ⟨[("Bar", ⟨[]⟩)]⟩)]⟩
      ⟨.other, some ["r", "Foo.framework", "Headers", "Foo.h"], none⟩ = .error "file" :=
  (claim_C10_umbrella_decl_fatal [("Foo", ⟨⟩)] (fun _ _ => [7]) ["r"]).2.2
    ⟨true, [("Foo", ⟨[("Bar", ⟨[]⟩)]⟩)]⟩
    ⟨.other, some ["r", "Foo.framework", "Headers", "Foo.h"], none⟩
    "Foo" ⟨⟩ ⟨[("Bar", ⟨[]⟩)]⟩
    (by
      intro name library hget
      by_cases h : ("Foo" : String) = name
      · subst h
        simp only [alGet, if_pos rfl] at hget
        obtain rfl := Option.some.inj hget
        decide
      · simp only [alGet, if_neg h] at hget
        cases hget)
    (by decide) (by decide) (by decide)
    (fun hor => by rcases hor with h | h | h <;> cases h)

/-- C8: `extract_framework_name` maps a resolved source path
`<frameworksRoot>/Foo.framework/Headers/Bar.h` to `("Foo", "Bar")` —
first component stripped of `.framework`, final component stripped of its
extension — and yields nothing for an entity whose path does not fall
under the frameworks root (or that has no location at all). -/
theorem claim_C8_extract_framework_name (root : List String) (foo bar : String)
    (k : EntityKind) (onm : Option String) (p : List String) (hbar : bar ≠ "") :
    extract_framework_name
        ⟨k, some (root ++ [foo ++ ".framework", "Headers", bar ++ ".h"]), onm⟩ root =
      .ok (some (foo, bar)) ∧
    (stripPrefixL root p = none →
      extract_framework_name ⟨k, some p, onm⟩ root = .ok none) ∧
    extract_framework_name ⟨k, none, onm⟩ root = .ok none := by
  refine ⟨?_, ?_, rfl⟩
  · unfold extract_framework_name
    simp only [stripPrefixL_append, stripSuffix_append, rustFileStemOfPath_headers bar hbar]
  · intro hp
    unfold extract_framework_name
    simp only [hp]

/-- Witness for C8: the header `r/Foo.framework/Headers/Bar.h` under root
`r` identifies as `("Foo", "Bar")`, and a path outside the root yields
nothing. -/
theorem claim_C8_extract_framework_name_witness :
    extract_framework_name
        ⟨.other, some (["r"] ++ ["Foo" ++ ".framework", "Headers", "Bar" ++ ".h"]), none⟩ ["r"] =
      .ok (some ("Foo", "Bar")) ∧
    extract_framework_name ⟨.other, some ["q", "x"], none⟩ ["r"] = .ok none :=
  ⟨(claim_C8_extract_framework_name ["r"] "Foo" "Bar" .other none ["q", "x"] (by decide)).1,
   (claim_C8_extract_framework_name ["r"] "Foo" "Bar" .other none ["q", "x"] (by decide)).2.1
     (by decide)⟩

/-- C3: during preprocessing, an own-framework inclusion whose header name
differs from the library name creates an empty file keyed by that header
name on first sight only; processing the same inclusion again leaves the
state unchanged, and a self-named inclusion creates no file at all. -/
theorem claim_C3_inclusion_idempotent (configs : List (String × Config))
    (stmtParse : Entity → Config → List Stmt) (frameworkDir : List String)
    (st : VisitState) (e : Entity) (lib fname : String) (config : Config) (library : Library)
    (nm hdrfile hdr : String)
    (hpre : st.preprocessing = true)
    (hkind : e.kind = .inclusionDirective)
    (hx : extract_framework_name e frameworkDir = .ok (some (lib, fname)))
    (hc : alGet configs lib = some config)
    (hl : alGet st.result lib = some library)
    (hn : e.name = some nm)
    (hsplit : splitSlash nm = [lib, hdrfile])
    (hstrip : stripSuffix hdrfile ".h" = some hdr) :
    (hdr ≠ lib →
      visitEntity configs stmtParse frameworkDir st e =
        .ok { st with result := (alSet st.result lib
            { library with files := alInsertWith hdr (File.new config) library.files }) } ∧
      (alGet library.files hdr = none →
        alGet (alInsertWith hdr (File.new config) library.files) hdr = some (File.new config)) ∧
      (∀ st1, visitEntity configs stmtParse frameworkDir st e = .ok st1 →
        visitEntity configs stmtParse frameworkDir st1 e = .ok st1)) ∧
    (hdr = lib → visitEntity configs stmtParse frameworkDir st e = .ok st) := by
  have hact := inclusionAction_two lib nm hdrfile hdr hsplit hstrip
  have hred := visitEntity_incl_red configs stmtParse frameworkDir st e lib fname config library
    hpre hkind hx hc hl
  constructor
  · intro hne
    have hact2 : inclusionAction lib nm = .ok (some hdr) := by rw [hact, if_neg hne]
    have h1 : visitEntity configs stmtParse frameworkDir st e =
        .ok { st with result := (alSet st.result lib
            { library with files := alInsertWith hdr (File.new config) library.files }) } := by
      rw [hred]
      simp only [inclusionArm, hn, hact2]
    refine ⟨h1, fun hnone => alGet_alInsertWith_none _ _ _ hnone, ?_⟩
    intro st1 hst1
    rw [h1] at hst1
    obtain rfl := Except.ok.inj hst1
    have halg1 : alGet (alSet st.result lib
        { library with files := alInsertWith hdr (File.new config) library.files }) lib =
        some { library with files := alInsertWith hdr (File.new config) library.files } :=
      alGet_alSet_self _ _ _ _ hl
    have hred2 := visitEntity_incl_red configs stmtParse frameworkDir
      { st with result := (alSet st.result lib
          { library with files := alInsertWith hdr (File.new config) library.files }) }
      e lib fname config
      { library with files := alInsertWith hdr (File.new config) library.files }
      hpre hkind hx hc halg1
    rw [hred2]
    simp only [inclusionArm, hn, hact2]
    rw [alInsertWith_idem]
    rw [alSet_self_eq _ _ _ halg1]
  · intro heq
    have hact3 : inclusionAction lib nm = .ok none := by rw [hact, if_pos heq]
    rw [hred]
    simp only [inclusionArm, hn, hact3]

/-- Witness for C3: the inclusion `Foo/Bar.h` seen from `Foo`'s umbrella
header creates file `Bar`, and the self-named inclusion `Foo/Foo.h`
creates nothing. -/
theorem claim_C3_inclusion_idempotent_witness :
    visitEntity [("Foo", ⟨⟩)] (fun _ _ => []) ["r"] ⟨true, [("Foo", Library.new)]⟩
      ⟨.inclusionDirective, some ["r", "Foo.framework", "Headers", "Foo.h"], some "Foo/Bar.h"⟩ =
      .ok ⟨true, [("Foo", ⟨[("Bar", ⟨[]⟩)]⟩)]⟩ ∧
    visitEntity [("Foo", ⟨⟩)] (fun _ _ => []) ["r"] ⟨true, [("Foo", Library.new)]⟩
      ⟨.inclusionDirective, some ["r", "Foo.framework", "Headers", "Foo.h"], some "Foo/Foo.h"⟩ =
      .ok ⟨true, [("Foo", Library.new)]⟩ :=
  ⟨(((claim_C3_inclusion_idempotent [("Foo", ⟨⟩)] (fun _ _ => []) ["r"]
        ⟨true, [("Foo", Library.new)]⟩
        ⟨.inclusionDirective, some ["r", "Foo.framework", "Headers", "Foo.h"], some "Foo/Bar.h"⟩
        "Foo" "Foo" ⟨⟩ Library.new "Foo/Bar.h" "Bar.h" "Bar"
        rfl rfl (by decide) (by decide) (by decide) rfl (by decide) (by decide)).1
      (by decide)).1).trans (by decide),
   (claim_C3_inclusion_idempotent [("Foo", ⟨⟩)] (fun _ _ => []) ["r"]
        ⟨true, [("Foo", Library.new)]⟩
        ⟨.inclusionDirective, some ["r", "Foo.framework", "Headers", "Foo.h"], some "Foo/Foo.h"⟩
        "Foo" "Foo" ⟨⟩ Library.new "Foo/Foo.h" "Foo.h" "Foo"
        rfl rfl (by decide) (by decide) (by decide) rfl (by decide) (by decide)).2 rfl⟩

/-- C4: an entity dispatched as a declaration looks up the file for its
(library, file stem): a missing file is a fatal contract violation, and an
existing file has the entity's parsed statements appended at its end,
preserving encounter order. -/
theorem claim_C4_declaration_dispatch (configs : List (String × Config))
    (stmtParse : Entity → Config → List Stmt) (frameworkDir : List String)
    (st : VisitState) (e : Entity) (lib fname : String) (config : Config) (library : Library)
    (hx : extract_framework_name e frameworkDir = .ok (some (lib, fname)))
    (hc : alGet configs lib = some config)
    (hl : alGet st.result lib = some library)
    (harm : (e.kind = .inclusionDirective ∨ e.kind = .macroExpansion ∨
        e.kind = .macroDefinition) → st.preprocessing = false) :
    (alGet library.files fname = none →
      visitEntity configs stmtParse frameworkDir st e = .error "file") ∧
    (∀ file, alGet library.files fname = some file →
      visitEntity configs stmtParse frameworkDir st e =
        .ok { preprocessing := false
              result := (alSet st.result lib
                { library with files := (alSet library.files fname
                    ⟨file.stmts ++ stmtParse e config⟩) }) }) := by
  have hred := visitEntity_decl_red configs stmtParse frameworkDir st e lib fname config library
    hx hc hl harm
  constructor
  · intro hnone
    rw [hred]
    exact declArm_missing _ _ _ _ _ _ _ hnone
  · intro file hfile
    rw [hred]
    simp only [declArm, hfile]

/-- Witness for C4: a declaration in `Bar.h` with no file `Bar` panics,
and with file `Bar` present appends its statement after the existing
ones. -/
theorem claim_C4_declaration_dispatch_witness :
    visitEntity [("Foo", ⟨⟩)] (fun _ _ => [7]) ["r"] ⟨true, [("Foo", Library.new)]⟩
      ⟨.other, some ["r", "Foo.framework", "Headers", "Bar.h"], none⟩ = .error "file" ∧
    visitEntity [("Foo", ⟨⟩)] (fun _ _ => [7]) ["r"] ⟨true, [("Foo", ⟨[("Bar", ⟨[5]⟩)]⟩)]⟩
      ⟨.other, some ["r", "Foo.framework", "Headers", "Bar.h"], none⟩ =
      .ok ⟨false, [("Foo", ⟨[("Bar", ⟨[5, 7]⟩)]⟩)]⟩ :=
  ⟨(claim_C4_declaration_dispatch [("Foo", ⟨⟩)] (fun _ _ => [7]) ["r"]
      ⟨true, [("Foo", Library.new)]⟩
      ⟨.other, some ["r", "Foo.framework", "Headers", "Bar.h"], none⟩
      "Foo" "Bar" ⟨⟩ Library.new (by decide) (by decide) (by decide)
      (fun hor => by rcases hor with h | h | h <;> cases h)).1 (by decide),
   ((claim_C4_declaration_dispatch [("Foo", ⟨⟩)] (fun _ _ => [7]) ["r"]
      ⟨true, [("Foo", ⟨[("Bar", ⟨[5]⟩)]⟩)]⟩
      ⟨.other, some ["r", "Foo.framework", "Headers", "Bar.h"], none⟩
      "Foo" "Bar" ⟨⟩ ⟨[("Bar", ⟨[5]⟩)]⟩ (by decide) (by decide) (by decide)
      (fun hor => by rcases hor with h | h | h <;> cases h)).2 ⟨[5]⟩ (by decide)).trans
    (by decide)⟩

/-- C7 counterexample: the claim says every inclusion directive processed
while preprocessing has its included path validated (missing `.h` suffix
or extra path segments are fatal). The code validates only when the
included framework equals the current library: the inclusion of
`Other/Bad` — whose header component lacks `.h` — is processed from a
tracked `Foo` header during preprocessing and is silently ignored rather
than failing. -/
theorem claim_C7_counterexample :
    stripSuffix "Bad" ".h" = none ∧
    visitEntity [("Foo", ⟨⟩)] (fun _ _ => []) ["r"] ⟨true, [("Foo", Library.new)]⟩
      ⟨.inclusionDirective, some ["r", "Foo.framework", "Headers", "Baz.h"], some "Other/Bad"⟩ =
      .ok ⟨true, [("Foo", Library.new)]⟩ := by
  constructor
  · decide
  · decide

/-- C7 (amended): for every inclusion directive processed in the
`Preprocessing` state whose included path's framework component equals the
current library name, the rest of the path is parsed as a header: a header
component lacking the `.h` suffix, or further path segments after it, is a
fatal failure. (Inclusions naming a different framework are ignored
without any validation.) -/
theorem claim_C7_inclusion_path_validation (configs : List (String × Config))
    (stmtParse : Entity → Config → List Stmt) (frameworkDir : List String)
    (st : VisitState) (e : Entity) (lib fname : String) (config : Config) (library : Library)
    (nm hdrfile : String) (rest : List String)
    (hpre : st.preprocessing = true)
    (hkind : e.kind = .inclusionDirective)
    (hx : extract_framework_name e frameworkDir = .ok (some (lib, fname)))
    (hc : alGet configs lib = some config)
    (hl : alGet st.result lib = some library)
    (hn : e.name = some nm)
    (hsplit : splitSlash nm = lib :: hdrfile :: rest) :
    (stripSuffix hdrfile ".h" = none →
      visitEntity configs stmtParse frameworkDir st e =
        .error "inclusion name file is header") ∧
    (∀ x, stripSuffix hdrfile ".h" = some x → rest ≠ [] →
      visitEntity configs stmtParse frameworkDir st e =
        .error ("invalid inclusion of " ++ nm)) := by
  have hred := visitEntity_incl_red configs stmtParse frameworkDir st e lib fname config library
    hpre hkind hx hc hl
  constructor
  · intro hstrip
    rw [hred]
    simp only [inclusionArm, hn, inclusionAction_noSuffix lib nm hdrfile rest hsplit hstrip]
  · intro x hstrip hrest
    rw [hred]
    simp only [inclusionArm, hn,
      inclusionAction_extraSeg lib nm hdrfile x rest hsplit hstrip hrest]

/-- Witness for the amended C7: an own-framework inclusion `Foo/Bad`
(no `.h`) panics, and `Foo/Bar.h/x` (extra segment) panics. -/
theorem claim_C7_inclusion_path_validation_witness :
    visitEntity [("Foo", ⟨⟩)] (fun _ _ => []) ["r"] ⟨true, [("Foo", Library.new)]⟩
      ⟨.inclusionDirective, some ["r", "Foo.framework", "Headers", "Baz.h"], some "Foo/Bad"⟩ =
      .error "inclusion name file is header" ∧
    visitEntity [("Foo", ⟨⟩)] (fun _ _ => []) ["r"] ⟨true, [("Foo", Library.new)]⟩
      ⟨.inclusionDirective, some ["r", "Foo.framework", "Headers", "Baz.h"],
        some "Foo/Bar.h/x"⟩ =
      .error ("invalid inclusion of " ++ "Foo/Bar.h/x") :=
  ⟨(claim_C7_inclusion_path_validation [("Foo", ⟨⟩)] (fun _ _ => []) ["r"]
      ⟨true, [("Foo", Library.new)]⟩
      ⟨.inclusionDirective, some ["r", "Foo.framework", "Headers", "Baz.h"], some "Foo/Bad"⟩
      "Foo" "Baz" ⟨⟩ Library.new "Foo/Bad" "Bad" []
      rfl rfl (by decide) (by decide) (by decide) rfl (by decide)).1 (by decide),
   (claim_C7_inclusion_path_validation [("Foo", ⟨⟩)] (fun _ _ => []) ["r"]
      ⟨true, [("Foo", Library.new)]⟩
      ⟨.inclusionDirective, some ["r", "Foo.framework", "Headers", "Baz.h"],
        some "Foo/Bar.h/x"⟩
      "Foo" "Baz" ⟨⟩ Library.new "Foo/Bar.h/x" "Bar.h" ["x"]
      rfl rfl (by decide) (by decide) (by decide) rfl (by decide)).2 "Bar" (by decide)
      (by decide)⟩

end HeaderTranslator